import Mathlib

/-!
Shallow embedding of `vector.hh` from the csgo-pack-vector repository.

The repository contains two near-identical definitions of `vector_t<T>::pack<Args...>`
(separated in the source file by a document separator).  Both variants share the
construction, access and dot/length methods; the first variant adds the angle
methods (`normalize_angle`, `normalized_angle`, `normalize_length`,
`normalized_length`, `get_angle`, `clamp_angle`), the second adds
`normalize`/`normalized`.

Modelling choices:
* The scalar `T = float` is modelled by the rationals `ℚ` for the operations whose
  claims only involve finite values, and by `FV` (rationals extended with NaN and
  the two infinities) for `normalize_angle`, whose source branches on `isfinite`.
* `std::array<T, Len>` is modelled as a function `Fin Len → T`; the unchecked
  `operator[]` is total on in-range indices (`Fin Len`), which covers every access
  the source performs.
* The C library `sqrtf` is modelled by `Rat.sqrt`, which agrees with the real
  square root on perfect squares (every concrete length in the claims is one) and
  is zero exactly on the non-positive rationals, so the `length != 0.F` branch
  tests agree with the real-valued semantics.
* `std::remainderf(x, 360)` is modelled exactly: `x - 360 * n` where `n` is the
  quotient `x / 360` rounded to the nearest integer, ties to even.
* `atan2f` and the degree-conversion factor `180.F / M_PI` are not evaluated by any
  claim; `get_angle` takes them as parameters `at2` and `k`.
* The second variant's `normalized()` is NOT embedded: it binds its copy as
  `const auto &copy = get_copy();` and then compound-assigns through `copy[0]`,
  `copy[1]`, `copy[2]`.  On a const reference the const `operator[]` is selected,
  which returns the component `T = float` by value, and assignment to a prvalue of
  built-in type is ill-formed C++; the function therefore cannot be instantiated
  and has no input-output behavior that a shallow embedding could represent.
-/

set_option autoImplicit false

namespace PackVec

/-- Modelled from the spec: `enums.hh` is included by `vector.hh` but is not in the
repository snapshot; spec §3 fixes the component order as index 0 = pitch,
index 1 = yaw, index 2 = roll. -/
abbrev PITCH : Fin 3 := 0

/-- Modelled from the spec: yaw is component index 1 (see `PITCH`). -/
abbrev YAW : Fin 3 := 1

/-- Modelled from the spec: roll is component index 2 (see `PITCH`). -/
abbrev ROLL : Fin 3 := 2

/-- Scalar value of the `float` instantiation, keeping track of non-finite values:
a finite float is modelled by a rational, and NaN and the two infinities are the
values on which `std::isfinite` is false. -/
inductive FV where
  | fin (q : ℚ)
  | nan
  | posinf
  | neginf
deriving DecidableEq

/-- Embeds `std::isfinite`: true exactly on finite values. -/
def FV.isfinite : FV → Bool
  | .fin _ => true
  | _ => false

/-- Rational carried by a finite value (the non-finite cases are never reached by
the source, which guards every arithmetic use with `std::isfinite`). -/
def FV.toQ : FV → ℚ
  | .fin q => q
  | _ => 0

/-- Embeds `vector_t<T>::pack<Args...>`: `Len = sizeof...(Args)` components of
scalar type `T`, stored in `m_contents` (an `std::array<T, Len>`). -/
@[ext]
structure pack (T : Type) (n : ℕ) where
  m_contents : Fin n → T

instance {T : Type} {n : ℕ} [DecidableEq T] : DecidableEq (pack T n) :=
  fun a b =>
    decidable_of_iff (a.m_contents = b.m_contents) (by cases a; cases b; simp)

/-- Embeds `get_size()`: returns the compile-time constant `Len`. -/
def get_size {T : Type} {n : ℕ} (_ : pack T n) : ℕ := n

/-- Embeds the const `operator[]`: reads component `i` by value. -/
def idx {T : Type} {n : ℕ} (v : pack T n) (i : Fin n) : T := v.m_contents i

/-- Embeds an assignment through the non-const `operator[]` (which returns `T &`):
the state after writing `x` into component `i`. -/
def setAt {T : Type} {n : ℕ} (v : pack T n) (i : Fin n) (x : T) : pack T n :=
  ⟨Function.update v.m_contents i x⟩

/-- Embeds `get_contents()`: a copy of the backing array. -/
def get_contents {T : Type} {n : ℕ} (v : pack T n) : Fin n → T := v.m_contents

/-- Embeds `get_copy()`: `auto _this = *this; return _this;`. -/
def get_copy {T : Type} {n : ℕ} (v : pack T n) : pack T n :=
  let _this := v
  _this

/-- Embeds `pack(const Args&... args)` for the 2-component rational instantiation. -/
def mkQ2 (a b : ℚ) : pack ℚ 2 := ⟨![a, b]⟩

/-- Embeds `pack(const Args&... args)` for the 3-component rational instantiation. -/
def mkQ3 (a b c : ℚ) : pack ℚ 3 := ⟨![a, b, c]⟩

/-- Embeds `pack(const Args&... args)` for the 3-component `FV` instantiation. -/
def mkF3 (a b c : FV) : pack FV 3 := ⟨![a, b, c]⟩

/-- Embeds `get_dot<N>()`: `static_assert(N <= Len)` becomes the hypothesis `h`,
and the accumulation loop `result += contents[i] * contents[i]` for `i < N`
becomes a sum over `Fin N`. -/
def get_dot {n : ℕ} (v : pack ℚ n) (N : ℕ) (h : N ≤ n) : ℚ :=
  ∑ i : Fin N, get_contents v (Fin.castLE h i) * get_contents v (Fin.castLE h i)

/-- Embeds `get_length<N>()`: `sqrt(get_dot<N>())`, with `sqrtf` modelled by
`Rat.sqrt` (see the file comment). -/
def get_length {n : ℕ} (v : pack ℚ n) (N : ℕ) (h : N ≤ n) : ℚ :=
  Rat.sqrt (get_dot v N h)

/-- Embeds `dot<N>(const pack &arg)`.  The runtime `assert(arg.get_size() <= N)`
is modelled by returning `none` when its condition fails.  Note that the source
initializes BOTH `arg_contents` and `contents` from the receiver's
`get_contents()` — the line reads `const auto &arg_contents = get_contents();`,
not `arg.get_contents()` — and the embedding reproduces that. -/
def dot {n : ℕ} (v : pack ℚ n) (arg : pack ℚ n) (N : ℕ) (h : N ≤ n) : Option ℚ :=
  if get_size arg ≤ N then
    let arg_contents := get_contents v
    let contents := get_contents v
    some (∑ i : Fin N, contents (Fin.castLE h i) * arg_contents (Fin.castLE h i))
  else
    none

/-- Canonical spelling of `get_length()` at the full component count 3, as called
by `normalize_length`, `normalize` and `normalized` (the template parameter `N`
defaults to `Len`). -/
def len3 (v : pack ℚ 3) : ℚ := get_length v 3 (le_refl 3)

/-- Canonical spelling of `get_length<2>()`, the 2-component prefix length used
by `get_angle`. -/
def len2 (v : pack ℚ 3) : ℚ := get_length v 2 (by omega)

/-- Embeds `std::remainderf`'s integer rounding: the quotient rounded to the
nearest integer, ties to even. -/
def roundHalfEven (q : ℚ) : ℤ :=
  if q - ⌊q⌋ < 1/2 then ⌊q⌋
  else if 1/2 < q - ⌊q⌋ then ⌊q⌋ + 1
  else if ⌊q⌋ % 2 = 0 then ⌊q⌋ else ⌊q⌋ + 1

/-- Embeds `std::remainderf(x, y)` on finite values: `x - y * n` where `n` is
`x / y` rounded to the nearest integer, ties to even. -/
def remainderQ (x y : ℚ) : ℚ := x - y * (roundHalfEven (x / y) : ℚ)

/-- One component's treatment in `normalize_angle`: the conditional expression
`std::isfinite(c) ? std::remainderf(c, 360.F) : 0.F`. -/
def angleStep (x : FV) : FV :=
  if x.isfinite then FV.fin (remainderQ x.toQ 360) else FV.fin 0

/-- Embeds `normalize_angle()` (first variant, in place): assigns, in order,
pitch, yaw and roll through the non-const `operator[]`, where pitch and yaw get
the `isfinite ? remainderf(·, 360) : 0` treatment and roll is forced to `0.F`. -/
def normalize_angle (v : pack FV 3) : pack FV 3 :=
  let v1 := setAt v PITCH
    (if (idx v PITCH).isfinite then FV.fin (remainderQ (idx v PITCH).toQ 360) else FV.fin 0)
  let v2 := setAt v1 YAW
    (if (idx v1 YAW).isfinite then FV.fin (remainderQ (idx v1 YAW).toQ 360) else FV.fin 0)
  setAt v2 ROLL (FV.fin 0)

/-- Embeds `normalized_angle()`: `auto copy = get_copy(); copy.normalize_angle();
return copy;`. -/
def normalized_angle (v : pack FV 3) : pack FV 3 :=
  normalize_angle (get_copy v)

/-- Embeds `normalize_length()` (first variant, in place): computes the
3-component length; if it is nonzero, divides pitch, yaw AND roll by it (the
source divides all three components); otherwise assigns `0.F` to yaw then pitch
and `1.F` to roll. -/
def normalize_length (v : pack ℚ 3) : pack ℚ 3 :=
  let length := len3 v
  if length ≠ 0 then
    let a := setAt v PITCH (idx v PITCH / length)
    let b := setAt a YAW (idx a YAW / length)
    setAt b ROLL (idx b ROLL / length)
  else
    let a := setAt v YAW 0
    let b := setAt a PITCH 0
    setAt b ROLL 1

/-- Embeds `normalized_length()`: `auto copy = get_copy(); copy.normalize_length();
return copy;`. -/
def normalized_length (v : pack ℚ 3) : pack ℚ 3 :=
  normalize_length (get_copy v)

/-- Embeds `get_angle()`: `forward` is a copy of the receiver and `angles` is a
default-constructed (all-zero) pack.  When pitch and yaw of `forward` are both
zero, the pitch output is `angles[ROLL] > 0.F ? -90.F : 90.F` — a read of the
still-default output roll — and the yaw output is set to `0.F`; otherwise only
the pitch output is assigned, `atan2(-forward[ROLL], forward.get_length<2>())`
times the degree conversion factor.  `atan2f` is the parameter `at2` and the
factor `180.F / M_PI` is the parameter `k` (neither is evaluated by any claim). -/
def get_angle (at2 : ℚ → ℚ → ℚ) (k : ℚ) (v : pack ℚ 3) : pack ℚ 3 :=
  let forward := v
  let angles : pack ℚ 3 := ⟨fun _ => 0⟩
  if idx forward PITCH = 0 ∧ idx forward YAW = 0 then
    let a1 := setAt angles PITCH (if 0 < idx angles ROLL then -90 else 90)
    setAt a1 YAW 0
  else
    setAt angles PITCH (at2 (-(idx forward ROLL)) (len2 forward) * k)

/-- Embeds `std::clamp<float>(v, lo, hi)`: `v < lo ? lo : hi < v ? hi : v`. -/
def clampQ (v lo hi : ℚ) : ℚ :=
  if v < lo then lo else if hi < v then hi else v

/-- Embeds `clamp_angle()` (in place): clamps pitch to `[-89, 89]`, yaw to
`[-180, 180]`, and forces roll to `0.F`. -/
def clamp_angle (v : pack ℚ 3) : pack ℚ 3 :=
  let a := setAt v PITCH (clampQ (idx v PITCH) (-89) 89)
  let b := setAt a YAW (clampQ (idx a YAW) (-180) 180)
  setAt b ROLL 0

/-- Embeds `normalize()` (second variant, in place): same computation as
`normalize_length()`, with the components written through literal indices
`0u`, `1u`, `2u`. -/
def normalize (v : pack ℚ 3) : pack ℚ 3 :=
  let length := len3 v
  if length ≠ 0 then
    let a := setAt v 0 (idx v 0 / length)
    let b := setAt a 1 (idx a 1 / length)
    setAt b 2 (idx b 2 / length)
  else
    let a := setAt v 1 0
    let b := setAt a 0 0
    setAt b 2 1

/-! The second variant's `normalized()` has no embedding here: binding the copy
as a const reference makes its component assignments act on prvalue floats
returned by the const `operator[]`, which is ill-formed C++, so the function
cannot be instantiated (see the file comment). -/

/-! Helper lemmas: component evaluation and extensionality. -/

theorem pack3_ext {T : Type} {v w : pack T 3} (h0 : idx v 0 = idx w 0)
    (h1 : idx v 1 = idx w 1) (h2 : idx v 2 = idx w 2) : v = w := by
  ext i
  match i with
  | 0 => exact h0
  | 1 => exact h1
  | 2 => exact h2

@[simp] theorem idx_mkQ3_zero (a b c : ℚ) : idx (mkQ3 a b c) 0 = a := rfl

@[simp] theorem idx_mkQ3_one (a b c : ℚ) : idx (mkQ3 a b c) 1 = b := rfl

@[simp] theorem idx_mkQ3_two (a b c : ℚ) : idx (mkQ3 a b c) 2 = c := rfl

@[simp] theorem idx_mkF3_zero (a b c : FV) : idx (mkF3 a b c) 0 = a := rfl

@[simp] theorem idx_mkF3_one (a b c : FV) : idx (mkF3 a b c) 1 = b := rfl

@[simp] theorem idx_mkF3_two (a b c : FV) : idx (mkF3 a b c) 2 = c := rfl

@[simp] theorem get_copy_eq {T : Type} {n : ℕ} (v : pack T n) : get_copy v = v := rfl

@[simp] theorem idx_zero_pack (i : Fin 3) : idx (⟨fun _ => 0⟩ : pack ℚ 3) i = 0 := rfl

theorem idx_setAt {T : Type} {n : ℕ} (v : pack T n) (i j : Fin n) (x : T) :
    idx (setAt v i x) j = if j = i then x else idx v j :=
  Function.update_apply v.m_contents i x j

@[simp] theorem idx_setAt_self {T : Type} {n : ℕ} (v : pack T n) (i : Fin n) (x : T) :
    idx (setAt v i x) i = x := by
  simp [idx_setAt]

@[simp] theorem idx_setAt_ne {T : Type} {n : ℕ} (v : pack T n) (i j : Fin n) (x : T)
    (h : j ≠ i) : idx (setAt v i x) j = idx v j := by
  simp [idx_setAt, h]

theorem get_dot_three (v : pack ℚ 3) (h : 3 ≤ 3) :
    get_dot v 3 h = idx v 0 * idx v 0 + idx v 1 * idx v 1 + idx v 2 * idx v 2 := by
  simp only [get_dot, Fin.sum_univ_three]
  rfl

theorem get_dot_two_of_three (v : pack ℚ 3) (h : 2 ≤ 3) :
    get_dot v 2 h = idx v 0 * idx v 0 + idx v 1 * idx v 1 := by
  simp only [get_dot, Fin.sum_univ_two]
  rfl

theorem get_length_three (v : pack ℚ 3) (h : 3 ≤ 3) :
    get_length v 3 h = Rat.sqrt (idx v 0 * idx v 0 + idx v 1 * idx v 1 + idx v 2 * idx v 2) := by
  rw [get_length, get_dot_three]

theorem get_length_two_of_three (v : pack ℚ 3) (h : 2 ≤ 3) :
    get_length v 2 h = Rat.sqrt (idx v 0 * idx v 0 + idx v 1 * idx v 1) := by
  rw [get_length, get_dot_two_of_three]

theorem len3_eq (v : pack ℚ 3) :
    len3 v = Rat.sqrt (idx v 0 * idx v 0 + idx v 1 * idx v 1 + idx v 2 * idx v 2) := by
  rw [len3, get_length_three]

theorem len2_eq (v : pack ℚ 3) :
    len2 v = Rat.sqrt (idx v 0 * idx v 0 + idx v 1 * idx v 1) := by
  rw [len2, get_length_two_of_three]

theorem len340 : len3 (mkQ3 3 4 0) = 5 := by
  rw [len3_eq]
  norm_num

theorem len034 : len3 (mkQ3 0 3 4) = 5 := by
  rw [len3_eq]
  norm_num

theorem len000 : len3 (mkQ3 0 0 0) = 0 := by
  rw [len3_eq]
  norm_num

/-! Properties of the round-to-nearest-ties-to-even remainder. -/

theorem sub_roundHalfEven_bounds (q : ℚ) :
    -(1/2) ≤ q - (roundHalfEven q : ℚ) ∧ q - (roundHalfEven q : ℚ) ≤ 1/2 := by
  have hge : (0 : ℚ) ≤ q - ⌊q⌋ := sub_nonneg.mpr (Int.floor_le q)
  have hlt : q - ⌊q⌋ < 1 := by
    have := Int.lt_floor_add_one q
    linarith
  unfold roundHalfEven
  split_ifs with h1 h2 h3 <;> push_cast <;> constructor <;> linarith

theorem roundHalfEven_eq_zero {t : ℚ} (h1 : -(1/2) ≤ t) (h2 : t ≤ 1/2) :
    roundHalfEven t = 0 := by
  rcases le_or_lt 0 t with hpos | hneg
  · have hfl : ⌊t⌋ = 0 := by
      rw [Int.floor_eq_zero_iff]
      exact ⟨hpos, by linarith⟩
    unfold roundHalfEven
    rw [hfl]
    split_ifs with g1 g2 g3
    · rfl
    · push_cast at g2
      linarith
    · rfl
    · omega
  · have hfl : ⌊t⌋ = -1 := by
      rw [Int.floor_eq_iff]
      constructor
      · push_cast
        linarith
      · push_cast
        linarith
    unfold roundHalfEven
    rw [hfl]
    split_ifs with g1 g2 g3
    · push_cast at g1
      linarith
    · norm_num
    · omega
    · norm_num

theorem remainderQ_idem (x : ℚ) : remainderQ (remainderQ x 360) 360 = remainderQ x 360 := by
  have hq : (x - 360 * (roundHalfEven (x / 360) : ℚ)) / 360
      = x / 360 - (roundHalfEven (x / 360) : ℚ) := by
    field_simp
  have hb := sub_roundHalfEven_bounds (x / 360)
  unfold remainderQ
  rw [hq, roundHalfEven_eq_zero hb.1 hb.2]
  push_cast
  ring

theorem remainderQ_zero_left : remainderQ 0 360 = 0 := by
  have h0 : roundHalfEven 0 = 0 :=
    roundHalfEven_eq_zero (by norm_num) (by norm_num)
  unfold remainderQ
  norm_num [h0]

theorem angleStep_idem (x : FV) : angleStep (angleStep x) = angleStep x := by
  cases x with
  | fin q =>
      simp only [angleStep, FV.isfinite, if_true, FV.toQ]
      rw [remainderQ_idem]
  | nan => simp [angleStep, FV.isfinite, FV.toQ, remainderQ_zero_left]
  | posinf => simp [angleStep, FV.isfinite, FV.toQ, remainderQ_zero_left]
  | neginf => simp [angleStep, FV.isfinite, FV.toQ, remainderQ_zero_left]

theorem normalize_angle_eq (v : pack FV 3) :
    normalize_angle v = mkF3 (angleStep (idx v PITCH)) (angleStep (idx v YAW)) (FV.fin 0) := by
  unfold normalize_angle
  apply pack3_ext
  · simp [angleStep, PITCH, YAW, ROLL]
  · simp [angleStep, PITCH, YAW, ROLL]
  · simp [PITCH, YAW, ROLL]

/-! Characterizations of the length-normalizing and clamping operations. -/

theorem normalize_length_eq (v : pack ℚ 3) :
    normalize_length v =
      if len3 v ≠ 0 then
        mkQ3 (idx v 0 / len3 v) (idx v 1 / len3 v) (idx v 2 / len3 v)
      else mkQ3 0 0 1 := by
  simp only [normalize_length]
  by_cases h : len3 v = 0
  · rw [if_neg (not_not_intro h), if_neg (not_not_intro h)]
    apply pack3_ext <;> simp [idx_setAt, PITCH, YAW, ROLL]
  · rw [if_pos h, if_pos h]
    apply pack3_ext <;> simp [idx_setAt, PITCH, YAW, ROLL]

theorem normalize_eq (v : pack ℚ 3) :
    normalize v =
      if len3 v ≠ 0 then
        mkQ3 (idx v 0 / len3 v) (idx v 1 / len3 v) (idx v 2 / len3 v)
      else mkQ3 0 0 1 := by
  simp only [normalize]
  by_cases h : len3 v = 0
  · rw [if_neg (not_not_intro h), if_neg (not_not_intro h)]
    apply pack3_ext <;> simp [idx_setAt, PITCH, YAW, ROLL]
  · rw [if_pos h, if_pos h]
    apply pack3_ext <;> simp [idx_setAt, PITCH, YAW, ROLL]

theorem clamp_angle_eq (v : pack ℚ 3) :
    clamp_angle v =
      mkQ3 (clampQ (idx v 0) (-89) 89) (clampQ (idx v 1) (-180) 180) 0 := by
  simp only [clamp_angle]
  apply pack3_ext <;> simp [idx_setAt, PITCH, YAW, ROLL]

theorem get_angle_eq (at2 : ℚ → ℚ → ℚ) (k : ℚ) (v : pack ℚ 3) :
    get_angle at2 k v =
      if idx v PITCH = 0 ∧ idx v YAW = 0 then mkQ3 90 0 0
      else mkQ3 (at2 (-(idx v ROLL)) (len2 v) * k) 0 0 := by
  simp only [get_angle]
  by_cases h : idx v PITCH = 0 ∧ idx v YAW = 0
  · rw [if_pos h, if_pos h]
    apply pack3_ext <;> simp [idx_setAt, PITCH, YAW, ROLL]
  · rw [if_neg h, if_neg h]
    apply pack3_ext <;> simp [idx_setAt, PITCH, YAW, ROLL]

theorem clampQ_mem (x lo hi : ℚ) (h : lo ≤ hi) :
    lo ≤ clampQ x lo hi ∧ clampQ x lo hi ≤ hi := by
  unfold clampQ
  split_ifs <;> constructor <;> linarith

theorem clampQ_of_mem (x lo hi : ℚ) (h1 : lo ≤ x) (h2 : x ≤ hi) : clampQ x lo hi = x := by
  unfold clampQ
  split_ifs <;> linarith

theorem rem10 : remainderQ 10 360 = 10 := by
  have h : roundHalfEven ((10 : ℚ) / 360) = 0 :=
    roundHalfEven_eq_zero (by norm_num) (by norm_num)
  rw [remainderQ, h]
  norm_num

theorem dot_two (v arg : pack ℚ 2) (h : 2 ≤ 2) :
    dot v arg 2 h = some (idx v 0 * idx v 0 + idx v 1 * idx v 1) := by
  simp only [dot, get_size]
  rw [if_pos (le_refl 2), Fin.sum_univ_two]
  rfl

theorem dot_one_of_two (v arg : pack ℚ 2) (h : 1 ≤ 2) : dot v arg 1 h = none := by
  simp only [dot, get_size]
  rw [if_neg (by omega)]

@[simp] theorem idx_mkQ2_zero (a b : ℚ) : idx (mkQ2 a b) 0 = a := rfl

@[simp] theorem idx_mkQ2_one (a b : ℚ) : idx (mkQ2 a b) 1 = b := rfl

/-! Claim theorems. -/

/-- C1: the claim states that `a.dot<K>(b)` equals the sum of `a[i] * b[i]`, i.e.
that the dot product uses the argument vector's components.  The source
initializes `arg_contents` from the receiver's `get_contents()` instead of
`arg.get_contents()`, so `a.dot<2>(b)` for `a = (1,2)`, `b = (3,4)` evaluates to
`1·1 + 2·2 = 5`, not the claimed `1·3 + 2·4 = 11`: the code contradicts the
evident intent of its own variable naming, a code bug. -/
theorem dot_pack_self_product_eval :
    dot (mkQ2 1 2) (mkQ2 3 4) 2 (le_refl 2) = some 5 ∧
    (1 * 3 + 2 * 4 : ℚ) = 11 ∧ (5 : ℚ) ≠ 11 := by
  refine ⟨?_, by norm_num, by norm_num⟩
  rw [dot_two]
  norm_num

/-- C6: the claim states that under the precondition `arg.get_size() ≥ K` the
assertion in `dot<K>(other)` never fires for a valid call with `K <` the
component count.  The source asserts `arg.get_size() <= N` (an inverted
comparison): for 2-component vectors and `K = 1`, the precondition `2 ≥ 1` holds
yet the assertion condition `2 ≤ 1` fails, so the call aborts — a code bug. -/
theorem dot_assert_fires_on_valid_call :
    1 ≤ get_size (mkQ2 3 4) ∧ dot (mkQ2 1 2) (mkQ2 3 4) 1 (by omega) = none :=
  ⟨by norm_num [get_size], dot_one_of_two _ _ (by omega)⟩

/-- C2 counterexample: the claim says `normalize_length()` leaves the roll
component untouched when the length is nonzero, but on `(0, 3, 4)` (length `5`)
the source divides roll as well, producing roll `4/5 ≠ 4`. -/
theorem normalize_length_divides_roll_cex :
    normalize_length (mkQ3 0 3 4) = mkQ3 0 (3/5) (4/5) ∧
    idx (mkQ3 0 3 4) ROLL = 4 ∧ ((4 : ℚ)/5) ≠ 4 := by
  refine ⟨?_, rfl, by norm_num⟩
  rw [normalize_length_eq, if_pos (by rw [len034]; norm_num), len034]
  apply pack3_ext <;> norm_num

/-- C2 (amended): for every 3-component vector, when the computed length is
nonzero `normalize_length()` divides ALL THREE components — pitch, yaw and
roll — by the length; when the length is zero it sets pitch = yaw = 0 and
roll = 1; and `normalized_length()` on `(3, 4, 0)` yields pitch `0.6`, yaw
`0.8` (and roll `0`). -/
theorem normalize_length_amended (v : pack ℚ 3) :
    (len3 v ≠ 0 →
      normalize_length v =
        mkQ3 (idx v PITCH / len3 v) (idx v YAW / len3 v) (idx v ROLL / len3 v)) ∧
    (len3 v = 0 → normalize_length v = mkQ3 0 0 1) ∧
    normalized_length (mkQ3 3 4 0) = mkQ3 (3/5) (4/5) 0 := by
  refine ⟨fun h => ?_, fun h => ?_, ?_⟩
  · rw [normalize_length_eq, if_pos h]
  · rw [normalize_length_eq, if_neg (not_not_intro h)]
  · simp only [normalized_length, get_copy_eq]
    rw [normalize_length_eq, if_pos (by rw [len340]; norm_num), len340]
    apply pack3_ext <;> norm_num

theorem normalize_length_amended_witness :
    len3 (mkQ3 3 4 0) ≠ 0 ∧ normalize_length (mkQ3 3 4 0) = mkQ3 (3/5) (4/5) 0 := by
  have hlen : len3 (mkQ3 3 4 0) ≠ 0 := by rw [len340]; norm_num
  refine ⟨hlen, ?_⟩
  have h := (normalize_length_amended (mkQ3 3 4 0)).1 hlen
  rw [h, len340]
  apply pack3_ext <;> norm_num

/-- C3: `get_angle()` on a 3-component vector returns a freshly constructed
vector; when components 0 and 1 are both exactly zero it has pitch `90` (the
output roll defaults to `0`, so the `roll > 0` test selecting `-90` is false)
and yaw `0`; otherwise its pitch is `atan2(-component[2],` length of the
2-component prefix`)` times the radians-to-degrees factor, with yaw left at its
default value `0`.  `at2` stands for `atan2f` and `k` for `180.F / M_PI`. -/
theorem get_angle_claim (at2 : ℚ → ℚ → ℚ) (k : ℚ) (v : pack ℚ 3) :
    (idx v PITCH = 0 ∧ idx v YAW = 0 → get_angle at2 k v = mkQ3 90 0 0) ∧
    (¬(idx v PITCH = 0 ∧ idx v YAW = 0) →
      get_angle at2 k v = mkQ3 (at2 (-(idx v ROLL)) (len2 v) * k) 0 0) ∧
    len2 v = Rat.sqrt (idx v PITCH * idx v PITCH + idx v YAW * idx v YAW) := by
  refine ⟨fun h => ?_, fun h => ?_, len2_eq v⟩
  · rw [get_angle_eq, if_pos h]
  · rw [get_angle_eq, if_neg h]

theorem get_angle_claim_witness :
    get_angle (fun a b => a + b) 1 (mkQ3 0 0 5) = mkQ3 90 0 0 :=
  (get_angle_claim (fun a b => a + b) 1 (mkQ3 0 0 5)).1 ⟨rfl, rfl⟩

/-- C4: code bug in `normalized()` (second variant).  The claim describes the
evident intent — return the normalization result as a copy, leaving the
original untouched — but the source binds the copy as `const auto &copy`, so
`copy[0] /= length` (and the fallback assignments) compound-assign to the
prvalue `float` returned by the const `operator[]`: ill-formed C++, the
function cannot be instantiated, and no copy-returning behavior exists.  The
in-place `normalize()`, which the claim correctly describes, is evaluated here
at both branches: the zero vector produces `(0, 0, 1)` — the result
`normalized()` was meant to return — and `(0, 3, 4)` (length `5`) has all
three components divided. -/
theorem normalize_zero_fallback_eval :
    len3 (mkQ3 0 0 0) = 0 ∧ normalize (mkQ3 0 0 0) = mkQ3 0 0 1 ∧
    len3 (mkQ3 0 3 4) ≠ 0 ∧ normalize (mkQ3 0 3 4) = mkQ3 0 (3/5) (4/5) := by
  refine ⟨len000, ?_, by rw [len034]; norm_num, ?_⟩
  · rw [normalize_eq, if_neg (not_not_intro len000)]
  · rw [normalize_eq, if_pos (by rw [len034]; norm_num), len034]
    apply pack3_ext <;> norm_num

/-- C7: `normalize_angle()` replaces pitch and yaw each by the round-to-nearest
remainder of dividing by 360 when the component is finite, by `0` when it is
not finite, and always forces roll to `0`; in particular `(NaN, 10, 5)` becomes
pitch `0`, yaw `10`, roll `0`. -/
theorem normalize_angle_claim (v : pack FV 3) :
    (∀ q : ℚ, idx v PITCH = FV.fin q →
      idx (normalize_angle v) PITCH = FV.fin (remainderQ q 360)) ∧
    ((idx v PITCH).isfinite = false → idx (normalize_angle v) PITCH = FV.fin 0) ∧
    (∀ q : ℚ, idx v YAW = FV.fin q →
      idx (normalize_angle v) YAW = FV.fin (remainderQ q 360)) ∧
    ((idx v YAW).isfinite = false → idx (normalize_angle v) YAW = FV.fin 0) ∧
    idx (normalize_angle v) ROLL = FV.fin 0 ∧
    normalize_angle (mkF3 FV.nan (FV.fin 10) (FV.fin 5)) =
      mkF3 (FV.fin 0) (FV.fin 10) (FV.fin 0) := by
  rw [normalize_angle_eq]
  refine ⟨fun q hq => ?_, fun h => ?_, fun q hq => ?_, fun h => ?_, ?_, ?_⟩
  · simp [PITCH, hq, angleStep, FV.isfinite, FV.toQ]
  · simp [PITCH, angleStep, h]
  · simp [YAW, hq, angleStep, FV.isfinite, FV.toQ]
  · simp [YAW, angleStep, h]
  · simp [ROLL]
  · rw [normalize_angle_eq]
    apply pack3_ext <;> simp [angleStep, FV.isfinite, FV.toQ, rem10]

theorem normalize_angle_claim_witness :
    idx (normalize_angle (mkF3 (FV.fin 450) (FV.fin 10) FV.nan)) PITCH =
      FV.fin (remainderQ 450 360) :=
  (normalize_angle_claim (mkF3 (FV.fin 450) (FV.fin 10) FV.nan)).1 450 rfl

/-- C8: `normalize_angle()` is idempotent on vectors with finite components:
applying it twice yields the same vector as applying it once. -/
theorem normalize_angle_idem_claim (v : pack FV 3)
    (h0 : (idx v PITCH).isfinite = true) (h1 : (idx v YAW).isfinite = true)
    (h2 : (idx v ROLL).isfinite = true) :
    normalize_angle (normalize_angle v) = normalize_angle v := by
  rw [normalize_angle_eq v, normalize_angle_eq]
  apply pack3_ext <;> simp [angleStep_idem]

theorem normalize_angle_idem_claim_witness :
    normalize_angle (normalize_angle (mkF3 (FV.fin 450) (FV.fin (-450)) (FV.fin 123))) =
      normalize_angle (mkF3 (FV.fin 450) (FV.fin (-450)) (FV.fin 123)) :=
  normalize_angle_idem_claim (mkF3 (FV.fin 450) (FV.fin (-450)) (FV.fin 123)) rfl rfl rfl

/-- C9: `clamp_angle()` clamps pitch into `[-89, 89]` (and is the identity on
pitch already in range), clamps yaw into `[-180, 180]` (identity on yaw in
range), and forces roll to `0`; in particular `(95, 200, 7)` becomes
`(89, 180, 0)` and `(-95, -200, 7)` becomes `(-89, -180, 0)`. -/
theorem clamp_angle_claim (v : pack ℚ 3) :
    (-89 ≤ idx (clamp_angle v) PITCH ∧ idx (clamp_angle v) PITCH ≤ 89) ∧
    (-180 ≤ idx (clamp_angle v) YAW ∧ idx (clamp_angle v) YAW ≤ 180) ∧
    idx (clamp_angle v) ROLL = 0 ∧
    (-89 ≤ idx v PITCH → idx v PITCH ≤ 89 → idx (clamp_angle v) PITCH = idx v PITCH) ∧
    (-180 ≤ idx v YAW → idx v YAW ≤ 180 → idx (clamp_angle v) YAW = idx v YAW) ∧
    clamp_angle (mkQ3 95 200 7) = mkQ3 89 180 0 ∧
    clamp_angle (mkQ3 (-95) (-200) 7) = mkQ3 (-89) (-180) 0 := by
  rw [clamp_angle_eq]
  refine ⟨?_, ?_, ?_, fun ha hb => ?_, fun ha hb => ?_, ?_, ?_⟩
  · simpa [PITCH] using clampQ_mem (idx v 0) (-89) 89 (by norm_num)
  · simpa [YAW] using clampQ_mem (idx v 1) (-180) 180 (by norm_num)
  · simp [ROLL]
  · simp only [PITCH, idx_mkQ3_zero]
    exact clampQ_of_mem (idx v 0) (-89) 89 ha hb
  · simp only [YAW, idx_mkQ3_one]
    exact clampQ_of_mem (idx v 1) (-180) 180 ha hb
  · rw [clamp_angle_eq]
    apply pack3_ext <;> norm_num [clampQ]
  · rw [clamp_angle_eq]
    apply pack3_ext <;> norm_num [clampQ]

theorem clamp_angle_claim_witness :
    idx (clamp_angle (mkQ3 10 20 7)) PITCH = idx (mkQ3 10 20 7) PITCH :=
  (clamp_angle_claim (mkQ3 10 20 7)).2.2.2.1 (by norm_num) (by norm_num)

/-- C10: the copy-returning operations never mutate the receiver: `get_copy()`
is a value-equal duplicate, a write into the copy lands in the copy (component
`i` of the updated copy is the written value, every other component is the
original's, and the original — a pure value — is untouched), and
`normalized_angle()` / `normalized_length()` are exactly the in-place operations
applied to a fresh copy. -/
theorem copy_independence_claim {n : ℕ} (v : pack ℚ n) (i j : Fin n) (x : ℚ)
    (u : pack ℚ 3) (w : pack FV 3) :
    get_copy v = v ∧
    idx (setAt (get_copy v) i x) j = (if j = i then x else idx v j) ∧
    normalized_angle w = normalize_angle (get_copy w) ∧
    normalized_length u = normalize_length (get_copy u) := by
  refine ⟨rfl, ?_, rfl, rfl⟩
  rw [get_copy_eq, idx_setAt]

end PackVec
